import Mathlib

/-!
Shallow embedding of the core services of the morning-routine app:

* `RoutineManager`  (src: checklist state, mark/toggle/reset, completion)
* `DateUtils`       (src/services/DateUtils.ts: time window, streak walk)
* `HistoryManager`  (src/services/HistoryManager.ts: daily records, rate)
* `SettingsManager` (schedule, active-now check)
* `LockingService`  (shouldLockNow, emergency unlock)

Modelling conventions:

* JS `Date.now()` timestamps are `Int` parameters threaded explicitly.
* ISO date keys ("YYYY-MM-DD") are embedded as `Int` day numbers: the
  source functions `parseISO` and `getDateISO` round-trip, and stepping
  the date back one day is day number minus one.
* "HH:MM" clock strings are embedded as the numeric (hours, minutes)
  pair that the source destructuring (split on colon, map Number) yields.
* `AsyncStorage` state is passed and returned explicitly; a fallible
  method that throws is embedded as `Except String`.
-/

namespace MorningRoutine

/-- The five checklist items of `RoutineItem` (src/types/RoutineItem.ts). -/
inductive RoutineItem where
  | pushups
  | coffeeBreakfast
  | water
  | calendarEmails
  | music
deriving DecidableEq

/-- Source `RoutineManager.getAllItems`: `Object.values(RoutineItem)`, the five items. -/
def getAllItems : List RoutineItem :=
  [.pushups, .coffeeBreakfast, .water, .calendarEmails, .music]

/-- In-memory state of `RoutineManager`: the completed-item set and the
recorded routine start time (`null` embedded as `none`). -/
structure RoutineState where
  completedItems : Finset RoutineItem
  routineStartTime : Option Int
deriving DecidableEq

/-- The state a fresh `RoutineManager` starts from: empty set, null start time. -/
def initialRoutineState : RoutineState := ⟨∅, none⟩

/-- Source `RoutineManager.isCompleted`: membership in the completed set. -/
def isCompleted (s : RoutineState) (item : RoutineItem) : Bool :=
  item ∈ s.completedItems

/-- Source `RoutineManager.markComplete`: when the set is empty and no start
time is recorded, record `now` as the start time; then add the item. -/
def markComplete (now : Int) (item : RoutineItem) (s : RoutineState) : RoutineState :=
  let s1 :=
    if s.completedItems.card = 0 ∧ s.routineStartTime = none then
      { s with routineStartTime := some now }
    else s
  { s1 with completedItems := insert item s1.completedItems }

/-- Source `RoutineManager.markIncomplete`: delete the item from the set. -/
def markIncomplete (item : RoutineItem) (s : RoutineState) : RoutineState :=
  { s with completedItems := s.completedItems.erase item }

/-- Source `RoutineManager.toggleItem`: markIncomplete if completed, else markComplete. -/
def toggleItem (now : Int) (item : RoutineItem) (s : RoutineState) : RoutineState :=
  if isCompleted s item then markIncomplete item s else markComplete now item s

/-- Source `RoutineManager.isRoutineComplete`: completed count equals the item count. -/
def isRoutineComplete (s : RoutineState) : Bool :=
  s.completedItems.card = getAllItems.length

/-- Source `RoutineManager.resetRoutine`: clear the set and the start time. -/
def resetRoutine (_s : RoutineState) : RoutineState := ⟨∅, none⟩

/-- One checklist operation, for reasoning about arbitrary call sequences. -/
inductive RoutineOp where
  | markC (now : Int) (item : RoutineItem)
  | markI (item : RoutineItem)
  | toggle (now : Int) (item : RoutineItem)
  | reset

/-- Apply one checklist operation to a `RoutineState`. -/
def applyOp (s : RoutineState) : RoutineOp → RoutineState
  | .markC now item => markComplete now item s
  | .markI item => markIncomplete item s
  | .toggle now item => toggleItem now item s
  | .reset => resetRoutine s

/-- Apply a sequence of checklist operations starting from the empty state. -/
def applyOps (ops : List RoutineOp) : RoutineState :=
  ops.foldl applyOp initialRoutineState

/-- A parsed "HH:MM" clock value: what splitting on the colon and mapping
Number yields in the source. -/
structure ClockTime where
  hours : Nat
  minutes : Nat
deriving DecidableEq

/-- Source `DateUtils.isWithinTimeWindow`: compare minutes-since-midnight,
inclusive at both ends (`currentMinutes >= startMinutes && currentMinutes <= endMinutes`). -/
def isWithinTimeWindow (nowHours nowMinutes : Nat) (startTime endTime : ClockTime) : Bool :=
  let currentMinutes := nowHours * 60 + nowMinutes
  let startMinutes := startTime.hours * 60 + startTime.minutes
  let endMinutes := endTime.hours * 60 + endTime.minutes
  decide (currentMinutes ≥ startMinutes) && decide (currentMinutes ≤ endMinutes)

/-- Loop body of `DateUtils.calculateStreak`: count matches against the
expected date, stepping the expectation back one day per match; stop
(`break`) at the first mismatch. -/
def streakLoop (expectedDate : Int) : List Int → Nat
  | [] => 0
  | date :: rest =>
    if date = expectedDate then streakLoop (date - 1) rest + 1 else 0

/-- Source `DateUtils.calculateStreak`: returns 0 on the empty list, else
walks the list with `today` as the first expected date. -/
def calculateStreak (today : Int) (completionDates : List Int) : Nat :=
  if completionDates.isEmpty then 0 else streakLoop today completionDates

/-- Source `DailyRecord` (src/services/HistoryManager.ts), with the ISO date
key embedded as an `Int` day number. -/
structure DailyRecord where
  date : Int
  completedItems : List RoutineItem
  startedAt : Int
  completedAt : Int
  totalTime : Int
  wasLocked : Bool
deriving DecidableEq

/-- Source `HistoryManager.recordCompletion` acting on the stored history
list: build the record for today, drop any existing record with the date key
of today,
put the new record at the head, and keep only the first 90 entries. -/
def recordCompletion (today : Int) (items : List RoutineItem)
    (startTime endTime : Int) (locked : Bool)
    (history : List DailyRecord) : List DailyRecord :=
  let record : DailyRecord :=
    ⟨today, items, startTime, endTime, endTime - startTime, locked⟩
  let filteredHistory := history.filter (fun r => r.date ≠ today)
  let newHistory := record :: filteredHistory
  newHistory.take 90

/-- JS `Math.round` on the exact rational value: floor of x + 1/2 (halves round up). -/
def jsRound (q : ℚ) : ℤ := ⌊q + 1 / 2⌋

/-- Source `HistoryManager.getCompletionRate`: take the most recent `days`
records; 0 when that slice is empty, else `Math.round((count / days) * 100)`. -/
def getCompletionRate (history : List DailyRecord) (days : Nat) : ℤ :=
  let recentHistory := history.take days
  if recentHistory.length = 0 then 0
  else jsRound ((recentHistory.length : ℚ) / (days : ℚ) * 100)

/-- Source `DaySchedule` (SettingsManager), clock strings embedded as `ClockTime`. -/
structure DaySchedule where
  enabled : Bool
  startTime : ClockTime
  endTime : ClockTime
deriving DecidableEq

/-- Source `AppSettings`: per-day schedule lookup (absent days embedded as
`none`), the locking flag, and the emergency-unlock delay in minutes. -/
structure AppSettings where
  schedule : Fin 7 → Option DaySchedule
  lockingEnabled : Bool
  emergencyUnlockDelay : Nat

/-- Source `SettingsManager.getScheduleForToday`: `null` when the schedule
entry for today is missing or disabled, else the schedule. -/
def getScheduleForToday (settings : AppSettings) (dayOfWeek : Fin 7) : Option DaySchedule :=
  match settings.schedule dayOfWeek with
  | none => none
  | some sch => if sch.enabled then some sch else none

/-- Source `SettingsManager.isRoutineActiveNow`: locking enabled, the
schedule for today present and enabled, and the current time in its window. -/
def isRoutineActiveNow (settings : AppSettings) (dayOfWeek : Fin 7)
    (nowHours nowMinutes : Nat) : Bool :=
  if !settings.lockingEnabled then false
  else
    match getScheduleForToday settings dayOfWeek with
    | none => false
    | some sch => isWithinTimeWindow nowHours nowMinutes sch.startTime sch.endTime

/-- Source `LockState` (LockingService). -/
structure LockState where
  isLocked : Bool
  lockedAt : Int
  reason : String
  emergencyUnlockAvailable : Bool
  routineStartTime : Int
deriving DecidableEq

/-- Source `LockingService.shouldLockNow`: false when not active; false when
the routine is complete; then, mirroring the source, return true whether or
not a lock state with `isLocked` is stored (the stored-lock branch and the
fall-through both return true). -/
def shouldLockNow (settings : AppSettings) (routine : RoutineState)
    (lockState : Option LockState) (dayOfWeek : Fin 7)
    (nowHours nowMinutes : Nat) : Bool :=
  if !isRoutineActiveNow settings dayOfWeek nowHours nowMinutes then false
  else if isRoutineComplete routine then false
  else
    match lockState with
    | some ls => if ls.isLocked then true else true
    | none => true

/-- Source `LockingService.canEmergencyUnlock`: false when no lock state is
stored or it is not locked; else true iff `now - lockedAt` has reached
`emergencyUnlockDelay` minutes in milliseconds. -/
def canEmergencyUnlock (lockState : Option LockState) (settings : AppSettings)
    (now : Int) : Bool :=
  match lockState with
  | none => false
  | some ls =>
    if !ls.isLocked then false
    else
      let delayMs : Int := (settings.emergencyUnlockDelay : Int) * 60 * 1000
      decide (now - ls.lockedAt ≥ delayMs)

/-- Source `LockingService.emergencyUnlock`: throw when `canEmergencyUnlock`
is false; otherwise `unlockApp` removes the stored lock state and nothing is
written to the completion history. -/
def emergencyUnlock (lockState : Option LockState) (history : List DailyRecord)
    (settings : AppSettings) (now : Int) :
    Except String (Option LockState × List DailyRecord) :=
  if canEmergencyUnlock lockState settings now then .ok (none, history)
  else .error "Emergency unlock not yet available"

/-- Storage state relevant to `RoutineManager.checkAndResetIfNeeded`: the
checklist state and the last-reset timestamp (0 when never stored). -/
structure ResetContext where
  routine : RoutineState
  lastReset : Int
deriving DecidableEq

/-- Source `RoutineManager.checkAndResetIfNeeded`: when `now >= resetTime`
and `lastReset < resetTime`, reset the routine, store `now` as the new
last-reset timestamp and return true; otherwise return false unchanged. -/
def checkAndResetIfNeeded (st : ResetContext) (resetTime now : Int) :
    Bool × ResetContext :=
  if now ≥ resetTime ∧ st.lastReset < resetTime then
    (true, ⟨resetRoutine st.routine, now⟩)
  else
    (false, st)

/-- A 07:00 to 10:00 enabled schedule, used in concrete instances. -/
def weekdaySchedule : DaySchedule := ⟨true, ⟨7, 0⟩, ⟨10, 0⟩⟩

/-- Settings with locking enabled, every day scheduled 07:00 to 10:00, and a
10 minute emergency-unlock delay, as in the default settings. -/
def defaultLikeSettings : AppSettings := ⟨fun _ => some weekdaySchedule, true, 10⟩

/-- A stored lock state with `isLocked = true`, locked at time 0. -/
def lockedState : LockState := ⟨true, 0, "morning_routine", false, 0⟩

/-- A checklist state with one completed item and a recorded start time. -/
def midRoutineState : RoutineState := ⟨{RoutineItem.water}, some 7⟩

/-- A history of seven records with distinct day keys. -/
def sevenDayHistory : List DailyRecord :=
  [⟨0, [], 0, 0, 0, false⟩, ⟨1, [], 0, 0, 0, false⟩, ⟨2, [], 0, 0, 0, false⟩,
   ⟨3, [], 0, 0, 0, false⟩, ⟨4, [], 0, 0, 0, false⟩, ⟨5, [], 0, 0, 0, false⟩,
   ⟨6, [], 0, 0, 0, false⟩]

/-- A storage context for the reset witness: one completed item, never reset. -/
def resetWitnessContext : ResetContext := ⟨midRoutineState, 0⟩

/-- Every `RoutineItem` is listed by `getAllItems`. -/
theorem mem_getAllItems (i : RoutineItem) : i ∈ getAllItems := by
  cases i <;> simp [getAllItems]

/-- Window membership unfolded to the two inclusive comparisons on
minutes-since-midnight. -/
theorem isWithinTimeWindow_eq_true_iff (nowHours nowMinutes : Nat)
    (startTime endTime : ClockTime) :
    isWithinTimeWindow nowHours nowMinutes startTime endTime = true ↔
      (startTime.hours * 60 + startTime.minutes ≤ nowHours * 60 + nowMinutes ∧
       nowHours * 60 + nowMinutes ≤ endTime.hours * 60 + endTime.minutes) := by
  simp [isWithinTimeWindow, ge_iff_le]

/-- Null start time forces an empty completed set, and each operation
preserves that implication. -/
theorem applyOp_startTime_none (s : RoutineState) (op : RoutineOp)
    (h : s.routineStartTime = none → s.completedItems = ∅) :
    (applyOp s op).routineStartTime = none → (applyOp s op).completedItems = ∅ := by
  have hmarkC : ∀ now item,
      (markComplete now item s).routineStartTime = none →
      (markComplete now item s).completedItems = ∅ := by
    intro now item
    unfold markComplete
    split
    · intro hc; simp at hc
    · rename_i hcond
      intro hc
      simp only at hc
      exact absurd ⟨by simp [h hc], hc⟩ hcond
  have hmarkI : ∀ item,
      (markIncomplete item s).routineStartTime = none →
      (markIncomplete item s).completedItems = ∅ := by
    intro item hc
    simp only [markIncomplete] at hc ⊢
    rw [h hc]
    exact Finset.erase_empty item
  cases op with
  | markC now item => exact hmarkC now item
  | markI item => exact hmarkI item
  | toggle now item =>
    simp only [applyOp, toggleItem]
    split
    · exact hmarkI item
    · exact hmarkC now item
  | reset => intro _; rfl

/-- The start-time implication holds after any operation sequence from a
state satisfying it. -/
theorem foldl_startTime_none (ops : List RoutineOp) (s : RoutineState)
    (h : s.routineStartTime = none → s.completedItems = ∅) :
    (ops.foldl applyOp s).routineStartTime = none →
      (ops.foldl applyOp s).completedItems = ∅ := by
  induction ops generalizing s with
  | nil => exact h
  | cons op rest ih =>
    exact ih (applyOp s op) (applyOp_startTime_none s op h)

/-- C8: `isWithinTimeWindow` returns true iff the start minutes-since-midnight
is at most the current minutes-since-midnight, and that is at most the end value,
inclusive at both boundaries; in particular exactly 07:00 and exactly 10:00
both count as inside a 07:00 to 10:00 window. -/
theorem isWithinTimeWindow_spec (nowHours nowMinutes : Nat)
    (startTime endTime : ClockTime) :
    (isWithinTimeWindow nowHours nowMinutes startTime endTime = true ↔
      (startTime.hours * 60 + startTime.minutes ≤ nowHours * 60 + nowMinutes ∧
       nowHours * 60 + nowMinutes ≤ endTime.hours * 60 + endTime.minutes)) ∧
    isWithinTimeWindow 7 0 ⟨7, 0⟩ ⟨10, 0⟩ = true ∧
    isWithinTimeWindow 10 0 ⟨7, 0⟩ ⟨10, 0⟩ = true :=
  ⟨isWithinTimeWindow_eq_true_iff nowHours nowMinutes startTime endTime,
   by decide, by decide⟩

/-- C2 counterexample: with a stored lock state whose `isLocked` is true,
locking enabled, every day scheduled 07:00 to 10:00, an incomplete checklist
and the current time 11:00 (outside the window), `shouldLockNow` returns
false, not true: the source checks the window before its stored-lock branch. -/
theorem shouldLockNow_locked_cex :
    lockedState.isLocked = true ∧
    shouldLockNow defaultLikeSettings initialRoutineState (some lockedState) 1 11 0 = false := by
  exact ⟨rfl, by decide⟩

/-- C2 amended: `shouldLockNow` ignores the stored lock state entirely: with a
stored lock (locked or not) it returns exactly what it returns with no lock
state stored, namely true iff the routine is active now and not yet complete. -/
theorem shouldLockNow_lockState_irrelevant (settings : AppSettings)
    (routine : RoutineState) (ls : LockState) (dayOfWeek : Fin 7)
    (nowHours nowMinutes : Nat) :
    shouldLockNow settings routine (some ls) dayOfWeek nowHours nowMinutes =
      shouldLockNow settings routine none dayOfWeek nowHours nowMinutes := by
  unfold shouldLockNow
  split
  · rfl
  · split
    · rfl
    · simp

/-- C4 counterexample: after `markComplete` then `markIncomplete` on the same
item from the empty state, the completed set is empty (size 0) while the
recorded start time is non-null, refuting the claimed equivalence
`size 0 iff startTime null`. -/
theorem routineInvariant_cex :
    (applyOps [.markC 5 .pushups, .markI .pushups]).completedItems.card = 0 ∧
    (applyOps [.markC 5 .pushups, .markI .pushups]).routineStartTime = some 5 ∧
    ¬ ((applyOps [.markC 5 .pushups, .markI .pushups]).completedItems.card = 0 ↔
       (applyOps [.markC 5 .pushups, .markI .pushups]).routineStartTime = none) := by
  refine ⟨by decide, by decide, ?_⟩
  intro h
  have := h.mp (by decide)
  simp at this
  exact absurd this.symm (by decide)

/-- C4 amended: after every finite operation sequence from the empty state,
`completedItems` is a subset of the five RoutineItems, and a null
`routineStartTime` implies the completed set has size 0 (the converse
direction of the claimed equivalence fails, see the counterexample). -/
theorem routineInvariant_ops (ops : List RoutineOp) :
    (∀ i ∈ (applyOps ops).completedItems, i ∈ getAllItems) ∧
    ((applyOps ops).routineStartTime = none →
      (applyOps ops).completedItems.card = 0) := by
  constructor
  · intro i _
    exact mem_getAllItems i
  · intro h
    have := foldl_startTime_none ops initialRoutineState (fun _ => rfl) h
    rw [applyOps] at *
    rw [this]
    rfl

/-- C4 witness: the invariant instantiated after a reset. -/
theorem routineInvariant_ops_witness :
    (applyOps [.reset]).routineStartTime = none ∧
    (applyOps [.reset]).completedItems.card = 0 :=
  ⟨rfl, (routineInvariant_ops [.reset]).2 rfl⟩

/-- C5 counterexample: from the empty state (null start time), toggling an
item twice restores the empty completed set but records the toggle time as
the start time, so the full checklist state is not restored. -/
theorem toggleItem_twice_cex :
    (toggleItem 5 .pushups (toggleItem 5 .pushups initialRoutineState)).routineStartTime
      = some 5 ∧
    initialRoutineState.routineStartTime = none ∧
    toggleItem 5 .pushups (toggleItem 5 .pushups initialRoutineState) ≠ initialRoutineState := by
  refine ⟨by decide, rfl, ?_⟩
  intro h
  have := congrArg RoutineState.routineStartTime h
  rw [show (toggleItem 5 .pushups (toggleItem 5 .pushups initialRoutineState)).routineStartTime = some 5 from by decide] at this
  simp [initialRoutineState] at this

/-- C5 amended: toggling the same item twice always restores the completed
set, and restores the entire checklist state (start time included) whenever
the start time was already non-null; only a first-ever completion from a
null start time records a new start time. -/
theorem toggleItem_twice (now : Int) (item : RoutineItem) (s : RoutineState) :
    (toggleItem now item (toggleItem now item s)).completedItems = s.completedItems ∧
    (s.routineStartTime ≠ none → toggleItem now item (toggleItem now item s) = s) := by
  have hMC : ∀ t : RoutineState,
      (markComplete now item t).completedItems = insert item t.completedItems := by
    intro t
    unfold markComplete
    split <;> rfl
  have hMCneg : ∀ t : RoutineState, t.routineStartTime ≠ none →
      markComplete now item t = ⟨insert item t.completedItems, t.routineStartTime⟩ := by
    intro t ht
    unfold markComplete
    rw [if_neg (by rintro ⟨-, h⟩; exact ht h)]
  have hTin : ∀ t : RoutineState, item ∈ t.completedItems →
      toggleItem now item t = markIncomplete item t := by
    intro t ht
    unfold toggleItem
    rw [if_pos (by simp [isCompleted, ht])]
  have hTout : ∀ t : RoutineState, item ∉ t.completedItems →
      toggleItem now item t = markComplete now item t := by
    intro t ht
    unfold toggleItem
    rw [if_neg (by simp [isCompleted, ht])]
  obtain ⟨c, st⟩ := s
  by_cases hmem : item ∈ c
  · have h1 : toggleItem now item ⟨c, st⟩ = (⟨c.erase item, st⟩ : RoutineState) :=
      hTin ⟨c, st⟩ hmem
    have hmem2 : item ∉ (⟨c.erase item, st⟩ : RoutineState).completedItems :=
      Finset.not_mem_erase item c
    have h2 : toggleItem now item (⟨c.erase item, st⟩ : RoutineState) =
        markComplete now item ⟨c.erase item, st⟩ := hTout _ hmem2
    constructor
    · rw [h1, h2, hMC]
      exact Finset.insert_erase hmem
    · intro hst
      rw [h1, h2, hMCneg ⟨c.erase item, st⟩ hst]
      simp only
      rw [Finset.insert_erase hmem]
  · have h1 : toggleItem now item ⟨c, st⟩ = markComplete now item ⟨c, st⟩ :=
      hTout _ hmem
    have hmem2 : item ∈ (markComplete now item ⟨c, st⟩).completedItems := by
      rw [hMC]
      exact Finset.mem_insert_self item c
    have h2 : toggleItem now item (markComplete now item ⟨c, st⟩) =
        markIncomplete item (markComplete now item ⟨c, st⟩) := hTin _ hmem2
    constructor
    · rw [h1, h2]
      simp only [markIncomplete]
      rw [hMC]
      exact Finset.erase_insert hmem
    · intro hst
      rw [h1, h2, hMCneg _ hst]
      simp only [markIncomplete]
      rw [Finset.erase_insert hmem]

/-- C5 witness: with a recorded start time, toggling twice restores the full
state. -/
theorem toggleItem_twice_witness :
    (toggleItem 9 .pushups (toggleItem 9 .pushups midRoutineState)).completedItems
      = midRoutineState.completedItems ∧
    toggleItem 9 .pushups (toggleItem 9 .pushups midRoutineState) = midRoutineState :=
  ⟨(toggleItem_twice 9 .pushups midRoutineState).1,
   (toggleItem_twice 9 .pushups midRoutineState).2 (by decide)⟩

/-- C10: `checkAndResetIfNeeded` returns true and resets the checklist,
storing `now` as the last-reset timestamp, exactly when `now >= resetTime`
and `lastReset < resetTime`; otherwise it returns false and leaves the state
unchanged; after a performed reset an immediately repeated call with the
same `resetTime` returns false and changes nothing. -/
theorem checkAndResetIfNeeded_spec (st : ResetContext) (resetTime now nextNow : Int) :
    ((checkAndResetIfNeeded st resetTime now).1 = true ↔
      (resetTime ≤ now ∧ st.lastReset < resetTime)) ∧
    ((checkAndResetIfNeeded st resetTime now).1 = true →
      (checkAndResetIfNeeded st resetTime now).2 = ⟨initialRoutineState, now⟩) ∧
    ((checkAndResetIfNeeded st resetTime now).1 = false →
      (checkAndResetIfNeeded st resetTime now).2 = st) ∧
    ((checkAndResetIfNeeded st resetTime now).1 = true → now ≤ nextNow →
      (checkAndResetIfNeeded (checkAndResetIfNeeded st resetTime now).2 resetTime nextNow).1
        = false ∧
      (checkAndResetIfNeeded (checkAndResetIfNeeded st resetTime now).2 resetTime nextNow).2
        = (checkAndResetIfNeeded st resetTime now).2) := by
  by_cases h : now ≥ resetTime ∧ st.lastReset < resetTime
  · have h1 : checkAndResetIfNeeded st resetTime now =
        (true, ⟨initialRoutineState, now⟩) := by
      unfold checkAndResetIfNeeded resetRoutine initialRoutineState
      rw [if_pos h]
    rw [h1]
    refine ⟨⟨fun _ => ⟨h.1, h.2⟩, fun _ => rfl⟩, fun _ => rfl, by simp, ?_⟩
    intro _ _
    have h2 : checkAndResetIfNeeded ⟨initialRoutineState, now⟩ resetTime nextNow =
        (false, ⟨initialRoutineState, now⟩) := by
      unfold checkAndResetIfNeeded
      rw [if_neg (by rintro ⟨-, hlt⟩; exact absurd h.1 (not_le.mpr hlt))]
    rw [h2]
    exact ⟨rfl, rfl⟩
  · have h1 : checkAndResetIfNeeded st resetTime now = (false, st) := by
      unfold checkAndResetIfNeeded
      rw [if_neg h]
    rw [h1]
    refine ⟨⟨by simp, fun hc => absurd ⟨hc.1, hc.2⟩ h⟩, by simp, fun _ => rfl, by simp⟩

/-- C10 witness: at the reset boundary the reset fires once and a repeated
call does nothing. -/
theorem checkAndResetIfNeeded_spec_witness :
    (checkAndResetIfNeeded resetWitnessContext 10 10).1 = true ∧
    (checkAndResetIfNeeded resetWitnessContext 10 10).2 = ⟨initialRoutineState, 10⟩ ∧
    (checkAndResetIfNeeded (checkAndResetIfNeeded resetWitnessContext 10 10).2 10 11).1
      = false := by
  have T := checkAndResetIfNeeded_spec resetWitnessContext 10 10 11
  have h1 : (checkAndResetIfNeeded resetWitnessContext 10 10).1 = true :=
    T.1.mpr ⟨by decide, by decide⟩
  exact ⟨h1, T.2.1 h1, (T.2.2.2 h1 (by decide)).1⟩

/-- C1: with no lock state stored, `shouldLockNow` returns true iff locking
is enabled, the schedule for today exists and is enabled, the current time
is within the window of today inclusive at both ends, and the checklist is not yet
fully complete. -/
theorem shouldLockNow_unlocked_iff (settings : AppSettings) (routine : RoutineState)
    (dayOfWeek : Fin 7) (nowHours nowMinutes : Nat) :
    shouldLockNow settings routine none dayOfWeek nowHours nowMinutes = true ↔
      (settings.lockingEnabled = true ∧
       (∃ sch, settings.schedule dayOfWeek = some sch ∧ sch.enabled = true ∧
         sch.startTime.hours * 60 + sch.startTime.minutes ≤ nowHours * 60 + nowMinutes ∧
         nowHours * 60 + nowMinutes ≤ sch.endTime.hours * 60 + sch.endTime.minutes) ∧
       isRoutineComplete routine = false) := by
  unfold shouldLockNow isRoutineActiveNow getScheduleForToday
  cases hsch : settings.schedule dayOfWeek with
  | none =>
    cases hlk : settings.lockingEnabled <;> simp [hlk]
  | some sch =>
    cases hlk : settings.lockingEnabled
    · simp [hlk]
    · cases hen : sch.enabled
      · simp [hlk, hen]
      · cases hcpl : isRoutineComplete routine
        · simp [hlk, hen, hcpl, isWithinTimeWindow_eq_true_iff]
        · simp [hlk, hen, hcpl]

/-- C3: `canEmergencyUnlock` is false with no stored lock or an unlocked
state, false while the elapsed time since `lockedAt` is below the configured
delay in minutes times 60000 ms, and true once it reaches it;
`emergencyUnlock` rejects with an error and changes nothing while
`canEmergencyUnlock` is false, and once eligible clears the lock state while
leaving the completion history untouched. -/
theorem emergencyUnlock_spec (ls : LockState) (lockState : Option LockState)
    (history : List DailyRecord) (settings : AppSettings) (now : Int) :
    canEmergencyUnlock none settings now = false ∧
    (ls.isLocked = false → canEmergencyUnlock (some ls) settings now = false) ∧
    (ls.isLocked = true →
      now - ls.lockedAt < (settings.emergencyUnlockDelay : Int) * 60000 →
      canEmergencyUnlock (some ls) settings now = false) ∧
    (ls.isLocked = true →
      (settings.emergencyUnlockDelay : Int) * 60000 ≤ now - ls.lockedAt →
      canEmergencyUnlock (some ls) settings now = true) ∧
    (canEmergencyUnlock lockState settings now = false →
      emergencyUnlock lockState history settings now =
        .error "Emergency unlock not yet available") ∧
    (canEmergencyUnlock lockState settings now = true →
      emergencyUnlock lockState history settings now = .ok (none, history)) := by
  refine ⟨rfl, ?_, ?_, ?_, ?_, ?_⟩
  · intro h
    simp [canEmergencyUnlock, h]
  · intro h hlt
    simp only [canEmergencyUnlock, h, Bool.not_true, Bool.false_eq_true, if_false,
      decide_eq_false_iff_not, not_le, ge_iff_le]
    omega
  · intro h hle
    simp only [canEmergencyUnlock, h, Bool.not_true, Bool.false_eq_true, if_false,
      decide_eq_true_eq, ge_iff_le]
    omega
  · intro h
    simp [emergencyUnlock, h]
  · intro h
    simp [emergencyUnlock, h]

/-- C3 witness: with a 10 minute delay and a lock taken at time 0, the
emergency unlock becomes available exactly at 600000 ms and then succeeds. -/
theorem emergencyUnlock_spec_witness :
    canEmergencyUnlock (some lockedState) defaultLikeSettings 600000 = true ∧
    emergencyUnlock (some lockedState) [] defaultLikeSettings 600000 = .ok (none, []) := by
  have T := emergencyUnlock_spec lockedState (some lockedState) [] defaultLikeSettings 600000
  have h1 : canEmergencyUnlock (some lockedState) defaultLikeSettings 600000 = true :=
    T.2.2.2.1 rfl (by decide)
  exact ⟨h1, T.2.2.2.2.2 h1⟩

/-- C6: `recordCompletion` puts the freshly built record for today at the
head, the result contains exactly one record with the date key of today, the
result never exceeds 90 entries, and distinctness of date keys is preserved
so the history keeps at most one record per date key. -/
theorem recordCompletion_spec (today : Int) (items : List RoutineItem)
    (startTime endTime : Int) (locked : Bool) (history : List DailyRecord) :
    (recordCompletion today items startTime endTime locked history).head? =
      some ⟨today, items, startTime, endTime, endTime - startTime, locked⟩ ∧
    (recordCompletion today items startTime endTime locked history).countP
      (fun r => decide (r.date = today)) = 1 ∧
    (recordCompletion today items startTime endTime locked history).length ≤ 90 ∧
    ((history.map DailyRecord.date).Nodup →
      ((recordCompletion today items startTime endTime locked history).map
        DailyRecord.date).Nodup) := by
  have hrec : recordCompletion today items startTime endTime locked history =
      (⟨today, items, startTime, endTime, endTime - startTime, locked⟩ : DailyRecord) ::
        (history.filter (fun r => r.date ≠ today)).take 89 := rfl
  have hmemtake : ∀ r ∈ (history.filter (fun r => r.date ≠ today)).take 89,
      r.date ≠ today := by
    intro r hr
    have hr2 : r ∈ history.filter (fun r => r.date ≠ today) := List.take_subset 89 _ hr
    have := (List.mem_filter.mp hr2).2
    simpa using this
  refine ⟨by rw [hrec]; rfl, ?_, ?_, ?_⟩
  · rw [hrec, List.countP_cons]
    have h0 : List.countP (fun r => decide (r.date = today))
        ((history.filter (fun r => r.date ≠ today)).take 89) = 0 :=
      List.countP_eq_zero.mpr (by intro r hr; simpa using hmemtake r hr)
    rw [h0]
    simp
  · rw [hrec]
    simp only [List.length_cons]
    have := List.length_take_le 89 (history.filter (fun r => r.date ≠ today))
    omega
  · intro hnd
    rw [hrec, List.map_cons, List.nodup_cons]
    constructor
    · intro hmem
      obtain ⟨r, hr, hdate⟩ := List.mem_map.mp hmem
      exact hmemtake r hr hdate
    · have hsub : List.Sublist
          ((history.filter (fun r => r.date ≠ today)).take 89) history :=
        (List.take_sublist 89 (history.filter (fun r => r.date ≠ today))).trans
          (List.filter_sublist history)
      exact hnd.sublist (hsub.map DailyRecord.date)

/-- C6 witness: inserting a record for a fresh day into a seven-day history
with distinct keys keeps the keys distinct. -/
theorem recordCompletion_spec_witness :
    (sevenDayHistory.map DailyRecord.date).Nodup ∧
    ((recordCompletion 7 [] 0 0 false sevenDayHistory).map DailyRecord.date).Nodup := by
  have hn : (sevenDayHistory.map DailyRecord.date).Nodup := by decide
  exact ⟨hn, (recordCompletion_spec 7 [] 0 0 false sevenDayHistory).2.2.2 hn⟩

/-- The empty-list guard of `calculateStreak` is redundant: it always agrees
with the walk itself. -/
theorem calculateStreak_eq_streakLoop (today : Int) (l : List Int) :
    calculateStreak today l = streakLoop today l := by
  cases l <;> simp [calculateStreak, streakLoop]

/-- The walk never counts more matches than the list has elements. -/
theorem streakLoop_le_length (expectedDate : Int) (l : List Int) :
    streakLoop expectedDate l ≤ l.length := by
  induction l generalizing expectedDate with
  | nil => simp [streakLoop]
  | cons d rest ih =>
    simp only [streakLoop, List.length_cons]
    split
    · exact Nat.succ_le_succ (ih _)
    · omega

/-- Below the returned count, element N equals the expected date minus N. -/
theorem streakLoop_matches (expectedDate : Int) (l : List Int) :
    ∀ n, n < streakLoop expectedDate l → l[n]? = some (expectedDate - n) := by
  induction l generalizing expectedDate with
  | nil =>
    intro n h
    simp [streakLoop] at h
  | cons d rest ih =>
    intro n h
    simp only [streakLoop] at h
    split at h
    · rename_i heq
      cases n with
      | zero =>
        subst heq
        simp
      | succ m =>
        have hm := ih (d - 1) m (by omega)
        simp only [List.getElem?_cons_succ]
        rw [hm]
        subst heq
        congr 1
        push_cast
        ring
    · omega

/-- At the returned count (when in range), the element differs from the
expected date, so the walk stopped at the first mismatch. -/
theorem streakLoop_stop (expectedDate : Int) (l : List Int)
    (h : streakLoop expectedDate l < l.length) :
    l[streakLoop expectedDate l]? ≠ some (expectedDate - streakLoop expectedDate l) := by
  induction l generalizing expectedDate with
  | nil => simp at h
  | cons d rest ih =>
    by_cases heq : d = expectedDate
    · simp only [streakLoop, if_pos heq, List.length_cons] at h ⊢
      have h2 := ih (d - 1) (Nat.lt_of_succ_lt_succ h)
      simp only [List.getElem?_cons_succ]
      intro hcontra
      apply h2
      rw [hcontra]
      subst heq
      congr 1
      push_cast
      ring
    · simp only [streakLoop, if_neg heq]
      simp [heq]

/-- C7: `calculateStreak` counts how long the list tracks consecutive days
back from today: it is at most the list length, every counted element N
equals today minus N, the first uncounted element (if any) breaks the
pattern, and the concrete cases of the spec hold: empty list 0, head not
today 0, [today] 1, three consecutive days 3, a gap after two days 2. -/
theorem calculateStreak_spec (today : Int) (dates : List Int) :
    calculateStreak today dates ≤ dates.length ∧
    (∀ n, n < calculateStreak today dates → dates[n]? = some (today - n)) ∧
    (calculateStreak today dates < dates.length →
      dates[calculateStreak today dates]? ≠
        some (today - calculateStreak today dates)) ∧
    calculateStreak today ([] : List Int) = 0 ∧
    (dates.head? ≠ some today → calculateStreak today dates = 0) ∧
    calculateStreak today [today] = 1 ∧
    calculateStreak today [today, today - 1, today - 2] = 3 ∧
    calculateStreak today [today, today - 1, today - 4] = 2 := by
  refine ⟨?_, ?_, ?_, rfl, ?_, ?_, ?_, ?_⟩
  · rw [calculateStreak_eq_streakLoop]
    exact streakLoop_le_length today dates
  · rw [calculateStreak_eq_streakLoop]
    exact streakLoop_matches today dates
  · rw [calculateStreak_eq_streakLoop]
    exact streakLoop_stop today dates
  · intro hhead
    cases dates with
    | nil => rfl
    | cons d rest =>
      have hd : d ≠ today := by
        intro he
        exact hhead (by rw [he]; rfl)
      rw [calculateStreak_eq_streakLoop]
      simp only [streakLoop, if_neg hd]
  · rw [calculateStreak_eq_streakLoop]
    simp [streakLoop]
  · rw [calculateStreak_eq_streakLoop]
    simp only [streakLoop]
    rw [show today - 1 - 1 = today - 2 by ring]
    simp
  · rw [calculateStreak_eq_streakLoop]
    simp only [streakLoop]
    rw [show today - 1 - 1 = today - 2 by ring]
    rw [if_neg (show ¬ today - 4 = today - 2 by omega)]
    simp

/-- C7 witness: the characterization applied at a concrete list with a gap. -/
theorem calculateStreak_spec_witness :
    (0 < calculateStreak 10 [10, 9, 7] ∧
      ([10, 9, 7] : List Int)[0]? = some ((10 : Int) - ((0 : Nat) : Int))) ∧
    (calculateStreak 10 [10, 9, 7] < ([10, 9, 7] : List Int).length ∧
      ([10, 9, 7] : List Int)[calculateStreak 10 [10, 9, 7]]? ≠
        some ((10 : Int) - (calculateStreak 10 [10, 9, 7] : Int))) := by
  have T := calculateStreak_spec 10 [10, 9, 7]
  refine ⟨⟨by decide, T.2.1 0 (by decide)⟩, ⟨by decide, T.2.2.1 (by decide)⟩⟩

/-- C9: `getCompletionRate days` equals the JS rounding of
`100 * min(historyLength, days) / days` whenever `days` is at least 1. -/
theorem getCompletionRate_spec (history : List DailyRecord) (days : Nat)
    (hdays : 1 ≤ days) :
    getCompletionRate history days =
      jsRound (100 * ((min history.length days : Nat) : ℚ) / (days : ℚ)) := by
  unfold getCompletionRate
  simp only [List.length_take]
  by_cases h : min days history.length = 0
  · rw [if_pos h]
    have h0 : min history.length days = 0 := by omega
    rw [h0]
    unfold jsRound
    rw [show (100 : ℚ) * ((0 : Nat) : ℚ) / (days : ℚ) + 1 / 2 = 1 / 2 by push_cast; ring]
    have hfl : ⌊(1 / 2 : ℚ)⌋ = 0 := by
      rw [Int.floor_eq_zero_iff, Set.mem_Ico]
      constructor <;> norm_num
    rw [hfl]
  · rw [if_neg h]
    unfold jsRound
    congr 1
    push_cast
    rw [min_comm ((days : ℚ)) ((history.length : ℚ))]
    ring

/-- C9 witness: with exactly seven records, the 10 day completion rate is
the rounding of 70, namely 70. -/
theorem getCompletionRate_spec_witness :
    (1 : Nat) ≤ 10 ∧
    getCompletionRate sevenDayHistory 10 =
      jsRound (100 * ((min sevenDayHistory.length 10 : Nat) : ℚ) / (10 : ℚ)) ∧
    getCompletionRate sevenDayHistory 10 = 70 := by
  refine ⟨by decide, getCompletionRate_spec sevenDayHistory 10 (by decide), ?_⟩
  rw [getCompletionRate_spec sevenDayHistory 10 (by decide)]
  rw [show min sevenDayHistory.length 10 = 7 from rfl]
  unfold jsRound
  rw [show (100 : ℚ) * ((7 : Nat) : ℚ) / ((10 : Nat) : ℚ) + 1 / 2 = 70 + 1 / 2 by
    push_cast; ring]
  rw [Int.floor_eq_iff]
  constructor <;> norm_num

end MorningRoutine
